import Mathlib

/-
Verification of the diagnostics parsing/comparison engine of `src/run.ts`
(functions `parseDiagnostics` and `compareDiagnostics`).

Modelling conventions, used throughout:

* A JavaScript number is an IEEE-754 double.  It is modelled here as
  `Option ℚ`, where `none` stands for `NaN` and `some q` for an exact
  rational value.  Every claim settled in this file only involves values,
  comparisons and printed decimals on which exact rational arithmetic and
  double arithmetic agree (small decimal literals, exact subtractions,
  two-decimal rounding that is far from a representation boundary).
  The `Infinity` values and the rounding of doubles with more than 15
  significant digits are outside the modelled fragment.
* `undefined` arises in the code only through `previousDiagnostics[key] || 0`
  followed by `.value` / `.unit` access on the number `0`; arithmetic on it
  yields `NaN` (`none`) and rendering it yields the literal `"undefined"`.
  Both behaviours are modelled explicitly at their use sites.
* JavaScript strings are Lean `String`s; the single-character `split`,
  `trim`, `endsWith`, `replace`, `toLowerCase` and `includes` operations used
  by the source are given explicit character-list models below.
* A JavaScript object with string keys preserves insertion order for its
  non-numeric keys, and re-assignment of an existing key keeps the original
  position.  `Diagnostics` objects are therefore modelled as ordered
  association lists with an overwrite-in-place `objSet`.  (JavaScript
  additionally fronts canonical numeric keys in `for...in` order; no claim
  involves a metric whose name is a numeral, so this is not modelled.)
-/

/-! ## Character-level string primitives -/

/-- JavaScript `String.prototype.split` with a single-character separator,
on character lists: `splitChar l sep` cuts `l` at every `sep`. -/
def splitChar (sep : Char) : List Char → List (List Char)
  | [] => [[]]
  | c :: cs =>
    if c = sep then [] :: splitChar sep cs
    else
      match splitChar sep cs with
      | [] => [[c]]
      | l :: ls => (c :: l) :: ls

/-- JavaScript `s.split(sep)` for a one-character separator. -/
def jsSplit (s : String) (sep : Char) : List String :=
  (splitChar sep s.data).map (fun l => String.mk l)

/-- JavaScript `String.prototype.trim`: strip leading and trailing
whitespace. -/
def jsTrim (s : String) : String :=
  String.mk (((s.data.dropWhile Char.isWhitespace).reverse.dropWhile
    Char.isWhitespace).reverse)

/-- Remove the first occurrence of character `t` from a character list:
the behaviour of JavaScript `str.replace(t, '')` for a one-character
search string (only the FIRST occurrence is replaced). -/
def removeFirstChar (t : Char) : List Char → List Char
  | [] => []
  | c :: cs => if c = t then cs else c :: removeFirstChar t cs

/-- JavaScript `s.replace(t, '')` for a one-character search string. -/
def replaceCharOnce (s : String) (t : Char) : String :=
  String.mk (removeFirstChar t s.data)

/-- JavaScript `s.endsWith(c)` for a one-character argument. -/
def endsWithChar (s : String) (c : Char) : Bool :=
  decide (s.data.getLast? = some c)

/-- Drop the final character of a string (used by the spec-worded parser
model: "strip the suffix"). -/
def dropLastChar (s : String) : String :=
  String.mk s.data.dropLast

/-- `startsWithList l pat`: `pat` is a prefix of `l`. -/
def startsWithList : List Char → List Char → Bool
  | _, [] => true
  | [], _ :: _ => false
  | c :: cs, p :: ps => c = p && startsWithList cs ps

/-- `occursInList pat l`: `pat` occurs contiguously somewhere in `l`. -/
def occursInList (pat : List Char) : List Char → Bool
  | [] => startsWithList [] pat
  | c :: cs => startsWithList (c :: cs) pat || occursInList pat cs

/-- JavaScript `s.includes(pat)`. -/
def occursIn (s pat : String) : Bool :=
  occursInList pat.data s.data

/-! ## The JavaScript number model -/

/-- A JavaScript number: `none` is `NaN`, `some q` an exact value. -/
abbrev JsNum := Option ℚ

/-- JavaScript subtraction: any operation on `NaN` yields `NaN`. -/
def jsSub : JsNum → JsNum → JsNum
  | some a, some b => some (a - b)
  | _, _ => none

/-- JavaScript division.  Division involving `NaN` yields `NaN`.  The
`some a / some 0` case (JavaScript `Infinity`) is mapped to `none`; the
source guards every division by `currentValue.value !== 0`, so this case
is unreachable on the code paths modelled here. -/
def jsDiv : JsNum → JsNum → JsNum
  | some a, some b => if b = 0 then none else some (a / b)
  | _, _ => none

/-- Multiplication of a JavaScript number by a (non-`NaN`) constant. -/
def jsMulC (a : JsNum) (c : ℚ) : JsNum :=
  a.map (fun x => x * c)

/-- JavaScript `Math.abs`. -/
def jsAbs (a : JsNum) : JsNum :=
  a.map (fun x => |x|)

/-- Negation of a JavaScript number. -/
def jsNegate (a : JsNum) : JsNum :=
  a.map (fun x => -x)

/-- JavaScript `a <= b` with a non-`NaN` right side: any comparison with
`NaN` is false. -/
def jsLe (a : JsNum) (b : ℚ) : Bool :=
  match a with
  | some x => decide (x ≤ b)
  | none => false

/-- JavaScript `a > 0`: false when `a` is `NaN`. -/
def jsPos (a : JsNum) : Bool :=
  match a with
  | some x => decide (0 < x)
  | none => false

/-! ## `parseFloat` / `parseInt` -/

/-- Longest leading run of decimal digits, paired with the rest. -/
def takeDigits : List Char → List Char × List Char
  | [] => ([], [])
  | c :: cs =>
    if c.isDigit then
      let r := takeDigits cs
      (c :: r.1, r.2)
    else ([], c :: cs)

/-- Value of a digit list, most significant first. -/
def digitsToNat (l : List Char) : Nat :=
  l.foldl (fun a c => a * 10 + (c.toNat - 48)) 0

/-- Strip one optional leading sign; returns (isNegative, rest). -/
def signSplit : List Char → Bool × List Char
  | '-' :: cs => (true, cs)
  | '+' :: cs => (false, cs)
  | cs => (false, cs)

/-- Value of an optional exponent part `[eE][+-]?digits` at the head of the
list; `0` when no well-formed exponent follows (JavaScript backtracks and
ignores a dangling `e`). -/
def expValue : List Char → ℤ
  | [] => 0
  | c :: rest =>
    if c = 'e' ∨ c = 'E' then
      let s := signSplit rest
      let d := takeDigits s.2
      if d.1.isEmpty then 0
      else if s.1 then -(digitsToNat d.1 : ℤ) else (digitsToNat d.1 : ℤ)
    else 0

/-- Model of JavaScript `parseFloat`: longest numeric prefix
`[+-]?(digits[.digits?]|.digits)([eE][+-]?digits)?` after leading
whitespace; `NaN` (`none`) when there is none.  The `Infinity` production
of the JavaScript grammar is not modelled (no claim involves it). -/
def jsParseFloat (s : String) : JsNum :=
  let l := s.data.dropWhile Char.isWhitespace
  let sg := signSplit l
  let ip := takeDigits sg.2
  match ip.2 with
  | '.' :: l3 =>
    let fp := takeDigits l3
    if ip.1.isEmpty ∧ fp.1.isEmpty then none
    else
      let base : ℚ :=
        (digitsToNat ip.1 : ℚ) + (digitsToNat fp.1 : ℚ) / 10 ^ fp.1.length
      some ((if sg.1 then -base else base) * (10 : ℚ) ^ expValue fp.2)
  | _ =>
    if ip.1.isEmpty then none
    else
      let base : ℚ := (digitsToNat ip.1 : ℚ)
      some ((if sg.1 then -base else base) * (10 : ℚ) ^ expValue ip.2)

/-- Model of JavaScript `parseInt` with no radix argument: longest decimal
integer prefix `[+-]?digits` after leading whitespace; `NaN` when there is
none.  The hexadecimal `0x` prefix form is not modelled (no claim
involves it). -/
def jsParseInt (s : String) : JsNum :=
  let l := s.data.dropWhile Char.isWhitespace
  let sg := signSplit l
  let d := takeDigits sg.2
  if d.1.isEmpty then none
  else if sg.1 then some (-(digitsToNat d.1 : ℚ)) else some ((digitsToNat d.1 : ℚ))

/-! ## Number rendering -/

/-- Strip trailing `'0'` characters. -/
def stripZeros (l : List Char) : List Char :=
  (l.reverse.dropWhile (fun c => c = '0')).reverse

/-- Left-pad a string with `'0'` to length `k`. -/
def padLeftZeros (s : String) (k : Nat) : String :=
  String.mk (List.replicate (k - s.data.length) '0' ++ s.data)

/-- Decimal rendering of a rational whose reduced denominator is of the
form `2^a * 5^b` — which holds for every value produced by `jsParseFloat`
and `jsParseInt`.  Matches JavaScript number-to-string conversion on such
values (shortest decimal, no trailing zeros; JavaScript's switch to
exponential notation at `1e21` is outside the modelled fragment). -/
def ratRender (q : ℚ) : String :=
  let sign := if q < 0 then "-" else ""
  let n := q.num.natAbs
  let d := q.den
  let ip := n / d
  let rem := n % d
  if rem = 0 then sign ++ Nat.repr ip
  else
    let frac := rem * 10 ^ d / d
    let padded := padLeftZeros (Nat.repr frac) d
    sign ++ Nat.repr ip ++ "." ++ String.mk (stripZeros padded.data)

/-- JavaScript template-literal rendering of a number: `NaN` prints as
`"NaN"`. -/
def jsNumToString : JsNum → String
  | some q => ratRender q
  | none => "NaN"

/-- Two-digit zero-padded rendering of `r < 100`. -/
def twoDigitPad (r : Nat) : String :=
  if r < 10 then "0" ++ Nat.repr r else Nat.repr r

/-- JavaScript `x.toFixed(2)` for a non-`NaN` number: sign of `x`, then the
magnitude rounded to two decimals with ties away from zero. -/
def toFixed2 (q : ℚ) : String :=
  let sign := if q < 0 then "-" else ""
  let m := (Int.floor (|q| * 100 + 1 / 2)).toNat
  sign ++ Nat.repr (m / 100) ++ "." ++ twoDigitPad (m % 100)

/-! ## The metric parser (`parseDiagnostics`) -/

/-- One parsed metric: `value` is a JavaScript number (possibly `NaN`),
`unit` is one of `"s"`, `"K"`, `""`. -/
structure Metric where
  value : JsNum
  unit : String
deriving Repr, DecidableEq

/-- JavaScript object assignment `diagnostics[key] = v` on an ordered
association list: overwrite in place when the key exists, else append. -/
def objSet : List (String × Metric) → String → Metric → List (String × Metric)
  | [], k, v => [(k, v)]
  | p :: d, k, v => if p.1 = k then (k, v) :: d else p :: objSet d k v

/-- The value-parsing branch of `parseDiagnostics`, applied to the trimmed
right-hand side of a `key: value` line:
`value.endsWith('s') → {parseFloat(value.replace('s','')), 's'}`,
`else value.endsWith('K') → {parseInt(value.replace('K','')), 'K'}`,
`else {parseInt(value), ''}`. -/
def parseValue (value : String) : Metric :=
  if endsWithChar value 's' then
    { value := jsParseFloat (replaceCharOnce value 's'), unit := "s" }
  else if endsWithChar value 'K' then
    { value := jsParseInt (replaceCharOnce value 'K'), unit := "K" }
  else
    { value := jsParseInt value, unit := "" }

/-- Modelled from the spec (§4.1 wording, used only to compare against the
code): "if the value ends with the literal suffix `s`, STRIP IT and parse
the remainder"; likewise for `K`.  The only difference from `parseValue`
is `dropLastChar` (strip the terminal suffix) in place of
`replaceCharOnce` (remove the first occurrence). -/
def specParseValue (value : String) : Metric :=
  if endsWithChar value 's' then
    { value := jsParseFloat (dropLastChar value), unit := "s" }
  else if endsWithChar value 'K' then
    { value := jsParseInt (dropLastChar value), unit := "K" }
  else
    { value := jsParseInt value, unit := "" }

/-- One line of `parseDiagnostics`: split on `':'`; when that yields
exactly two parts, trim both and parse the value, else no entry. -/
def parseLine? (line : String) : Option (String × Metric) :=
  let parts := jsSplit line ':'
  if parts.length = 2 then
    some (jsTrim (parts.getD 0 ""), parseValue (jsTrim (parts.getD 1 "")))
  else none

/-- `parseDiagnostics(input)`: split into lines, fold each parsed line
into the object. -/
def parseDiagnostics (input : String) : List (String × Metric) :=
  (jsSplit input '\n').foldl
    (fun diagnostics line =>
      match parseLine? line with
      | some kv => objSet diagnostics kv.1 kv.2
      | none => diagnostics)
    []

/-- JavaScript `diagnostics[key]` on the ordered association list. -/
def lookupMetric (d : List (String × Metric)) (k : String) : Option Metric :=
  (d.find? (fun p => p.1 == k)).map (fun p => p.2)

/-! ## The classifier and renderer (`compareDiagnostics`) -/

/-- `(previousDiagnostics[key] || 0).value`: when the key is absent the
fallback is the NUMBER `0`, whose `.value` property is `undefined`;
arithmetic on `undefined` gives `NaN`, so the absent case is `none`.
When present, the stored (possibly `NaN`) value. -/
def prevValueField (prevD : List (String × Metric)) (key : String) : JsNum :=
  (lookupMetric prevD key).bind Metric.value

/-- `diff = currentValue.value - prevValue.value`. -/
def metricDiff (prevD : List (String × Metric)) (key : String) (cur : Metric) : JsNum :=
  jsSub cur.value (prevValueField prevD key)

/-- `diffPercentage`: `(diff / currentValue.value) * 100` when
`currentValue.value !== 0` (note `NaN !== 0` is true), else `0`; then the
`isNaN` guard replaces `NaN` by `0`. -/
def metricPct (prevD : List (String × Metric)) (key : String) (cur : Metric) : ℚ :=
  (if cur.value ≠ some 0 then jsMulC (jsDiv (metricDiff prevD key cur) cur.value) 100
   else some 0).getD 0

/-- `shouldApplyThreshold = key.toLowerCase().includes('time')`. -/
def timeEligible (key : String) : Bool :=
  occursIn key.toLower "time"

/-- The status character of one row:
`diff === 0 → '±'`; else `shouldApplyThreshold && |diff|*1000 <= threshold
→ '±'`; else `diff > 0 ? '▲' : '▼'`. -/
def metricStatusStr (prevD : List (String × Metric)) (threshold : ℚ)
    (key : String) (cur : Metric) : String :=
  let diff := metricDiff prevD key cur
  let isWithinThreshold := jsLe (jsMulC (jsAbs diff) 1000) threshold
  if diff = some 0 then "±"
  else if timeEligible key && isWithinThreshold then "±"
  else if jsPos diff then "▲" else "▼"

/-- `${value}${unit}` for a present metric. -/
def showMetricValue (m : Metric) : String :=
  jsNumToString m.value ++ m.unit

/-- The `Previous` cell `${prevValue.value}${prevValue.unit}`: when the key
is absent, `prevValue` is the number `0` and both property accesses yield
`undefined`, printing `"undefinedundefined"`. -/
def prevCell (prevD : List (String × Metric)) (key : String) : String :=
  match lookupMetric prevD key with
  | some m => showMetricValue m
  | none => "undefinedundefined"

/-- `${diffPercentage > 0 ? '+' : ''}${diffPercentage.toFixed(2)}%`. -/
def pctCell (pct : ℚ) : String :=
  (if 0 < pct then "+" else "") ++ toFixed2 pct ++ "%"

/-- One table row of `compareDiagnostics` (without the trailing newline). -/
def metricRow (prevD : List (String × Metric)) (threshold : ℚ)
    (key : String) (cur : Metric) : String :=
  "| " ++ key ++ " | " ++ prevCell prevD key ++ " | " ++ showMetricValue cur
    ++ " | " ++ metricStatusStr prevD threshold key cur ++ " ("
    ++ pctCell (metricPct prevD key cur) ++ ") |"

/-- The rows of the rendered table, one per key of the CURRENT snapshot in
object iteration order. -/
def compareRows (prev current : String) (threshold : ℚ) : List String :=
  (parseDiagnostics current).map
    (fun kv => metricRow (parseDiagnostics prev) threshold kv.1 kv.2)

/-- `compareDiagnostics(prev, current, threshold)`: the full markdown
report string. -/
def compareDiagnostics (prev current : String) (threshold : ℚ) : String :=
  "## Diagnostics Comparison:\n\n"
    ++ "<details><summary>Click to expand</summary>\n\n"
    ++ "| Metric | Previous | New | Status |\n"
    ++ "| --- | --- | --- | --- |\n"
    ++ String.join ((compareRows prev current threshold).map (fun r => r ++ "\n"))
    ++ "</details>\n\n"

/-! ## Association-list lemmas -/

theorem lookupMetric_cons (p : String × Metric) (d : List (String × Metric)) (k : String) :
    lookupMetric (p :: d) k = if p.1 = k then some p.2 else lookupMetric d k := by
  by_cases h : p.1 = k <;> simp [lookupMetric, List.find?_cons, h]

theorem objSet_cons_hit (p : String × Metric) (d : List (String × Metric)) (k : String)
    (v : Metric) (hp : p.1 = k) : objSet (p :: d) k v = (k, v) :: d := by
  simp [objSet, hp]

theorem objSet_cons_miss (p : String × Metric) (d : List (String × Metric)) (k : String)
    (v : Metric) (hp : ¬p.1 = k) : objSet (p :: d) k v = p :: objSet d k v := by
  simp [objSet, hp]

theorem lookupMetric_objSet (d : List (String × Metric)) (k : String) (v : Metric)
    (q : String) :
    lookupMetric (objSet d k v) q = if q = k then some v else lookupMetric d q := by
  induction d with
  | nil =>
    rw [show objSet [] k v = [(k, v)] from rfl, lookupMetric_cons]
    by_cases h : q = k
    · simp [h]
    · simp [h, Ne.symm h]
  | cons p d ih =>
    by_cases hp : p.1 = k
    · rw [objSet_cons_hit p d k v hp, lookupMetric_cons, lookupMetric_cons]
      by_cases h : q = k
      · simp [h]
      · have h2 : ¬p.1 = q := fun hc => h ((hc.symm).trans hp)
        simp [h, Ne.symm h, h2]
    · rw [objSet_cons_miss p d k v hp, lookupMetric_cons, lookupMetric_cons, ih]
      by_cases hq : p.1 = q
      · have : ¬q = k := fun hqk => hp (hq.trans hqk)
        simp [hq, this]
      · simp [hq]

theorem mem_keys_objSet (d : List (String × Metric)) (k : String) (v : Metric)
    (q : String) :
    q ∈ (objSet d k v).map Prod.fst ↔ q ∈ d.map Prod.fst ∨ q = k := by
  induction d with
  | nil => simp [objSet]
  | cons p d ih =>
    by_cases hp : p.1 = k
    · rw [objSet_cons_hit p d k v hp]
      simp only [List.map_cons, List.mem_cons, hp]
      tauto
    · rw [objSet_cons_miss p d k v hp]
      simp only [List.map_cons, List.mem_cons, ih]
      tauto

theorem keys_nodup_objSet (d : List (String × Metric)) (k : String) (v : Metric)
    (h : (d.map Prod.fst).Nodup) : ((objSet d k v).map Prod.fst).Nodup := by
  induction d with
  | nil => simp [objSet]
  | cons p d ih =>
    simp only [List.map_cons, List.nodup_cons] at h
    by_cases hp : p.1 = k
    · rw [objSet_cons_hit p d k v hp]
      simp only [List.map_cons, List.nodup_cons]
      exact ⟨hp ▸ h.1, h.2⟩
    · rw [objSet_cons_miss p d k v hp]
      simp only [List.map_cons, List.nodup_cons]
      refine ⟨fun hc => ?_, ih h.2⟩
      rcases (mem_keys_objSet d k v p.1).mp hc with h1 | h1
      · exact h.1 h1
      · exact hp h1

theorem lookupMetric_of_mem (d : List (String × Metric)) (k : String) (m : Metric)
    (hnd : (d.map Prod.fst).Nodup) (hm : (k, m) ∈ d) : lookupMetric d k = some m := by
  induction d with
  | nil => cases hm
  | cons p d ih =>
    simp only [List.map_cons, List.nodup_cons] at hnd
    rcases List.mem_cons.mp hm with h | h
    · rw [← h, lookupMetric_cons]
      simp
    · have hne : ¬p.1 = k := by
        intro hc
        exact hnd.1 (hc ▸ (List.mem_map.mpr ⟨(k, m), h, rfl⟩))
      rw [lookupMetric_cons]
      simp only [hne, if_false]
      exact ih hnd.2 h

/-! ## Lemmas about `parseDiagnostics` as a fold -/

theorem foldl_parse_lookup (lines : List String) (d : List (String × Metric)) (k : String) :
    lookupMetric
      (lines.foldl (fun diagnostics line =>
        match parseLine? line with
        | some kv => objSet diagnostics kv.1 kv.2
        | none => diagnostics) d) k =
    (match (lines.filterMap parseLine?).reverse.find? (fun p => p.1 == k) with
     | some p => some p.2
     | none => lookupMetric d k) := by
  induction lines generalizing d with
  | nil => simp
  | cons line rest ih =>
    rcases hp : parseLine? line with _ | kv
    · simp only [List.foldl_cons, hp]
      rw [show (rest.filterMap parseLine?) = ((line :: rest).filterMap parseLine?) from
        (List.filterMap_cons_none hp).symm] at ih
      exact ih d
    · simp only [List.foldl_cons, hp, List.filterMap_cons_some hp, List.reverse_cons]
      rw [ih (objSet d kv.1 kv.2)]
      rcases hf : (rest.filterMap parseLine?).reverse.find? (fun p => p.1 == k) with _ | p
      · rw [List.find?_append, hf]
        simp only [Option.none_or]
        rw [lookupMetric_objSet]
        by_cases hk : kv.1 = k
        · simp [List.find?, hk]
        · have hb : (kv.1 == k) = false := by simp [hk]
          simp [List.find?, hb, Ne.symm hk]

      · rw [List.find?_append, hf]
        simp [Option.or]

theorem foldl_parse_nodup (lines : List String) (d : List (String × Metric))
    (h : (d.map Prod.fst).Nodup) :
    ((lines.foldl (fun diagnostics line =>
        match parseLine? line with
        | some kv => objSet diagnostics kv.1 kv.2
        | none => diagnostics) d).map Prod.fst).Nodup := by
  induction lines generalizing d with
  | nil => exact h
  | cons line rest ih =>
    rcases hp : parseLine? line with _ | kv
    · simp only [List.foldl_cons, hp]
      exact ih d h
    · simp only [List.foldl_cons, hp]
      exact ih _ (keys_nodup_objSet d kv.1 kv.2 h)

theorem parseDiagnostics_keys_nodup (input : String) :
    ((parseDiagnostics input).map Prod.fst).Nodup :=
  foldl_parse_nodup (jsSplit input '\n') [] (by simp)

theorem lookupMetric_parse (input : String) (k : String) :
    lookupMetric (parseDiagnostics input) k =
      (((jsSplit input '\n').filterMap parseLine?).reverse.find?
        (fun p => p.1 == k)).map (fun p => p.2) := by
  unfold parseDiagnostics
  rw [foldl_parse_lookup]
  rcases hf : ((jsSplit input '\n').filterMap parseLine?).reverse.find? (fun p => p.1 == k)
    with _ | p
  · rw [hf]
    rfl
  · rw [hf]
    rfl

/-! ## Splitting lemmas -/

theorem splitChar_ne_nil (sep : Char) (l : List Char) :
    ∃ a as, splitChar sep l = a :: as := by
  induction l with
  | nil => exact ⟨[], [], rfl⟩
  | cons c cs ih =>
    by_cases h : c = sep
    · exact ⟨[], splitChar sep cs, by simp [splitChar, h]⟩
    · obtain ⟨a, as, ha⟩ := ih
      exact ⟨c :: a, as, by simp [splitChar, h, ha]⟩

theorem splitChar_length (sep : Char) (l : List Char) :
    (splitChar sep l).length = l.count sep + 1 := by
  induction l with
  | nil => simp [splitChar]
  | cons c cs ih =>
    by_cases h : c = sep
    · subst h
      simp [splitChar, List.count_cons, ih]
    · obtain ⟨a, as, ha⟩ := splitChar_ne_nil sep cs
      rw [show splitChar sep (c :: cs) = (c :: a) :: as from by simp [splitChar, h, ha]]
      have h2 : (a :: as).length = cs.count sep + 1 := ha ▸ ih
      have h3 : sep ≠ c := fun hc => h hc.symm
      rw [List.count_cons_of_ne h3]
      simp only [List.length_cons] at h2 ⊢
      omega

theorem splitChar_append_sep (sep : Char) (pre suf : List Char) (h : sep ∉ pre) :
    splitChar sep (pre ++ sep :: suf) = pre :: splitChar sep suf := by
  induction pre with
  | nil => simp [splitChar]
  | cons c cs ih =>
    have hc : ¬c = sep := fun hcs => h (hcs ▸ List.mem_cons_self c cs)
    have hm : sep ∉ cs := fun hmem => h (List.mem_cons_of_mem c hmem)
    simp [splitChar, hc, ih hm]

theorem parseLine?_eq_some_iff (line : String) (k : String) (m : Metric) :
    parseLine? line = some (k, m) ↔
      (jsSplit line ':').length = 2 ∧ jsTrim ((jsSplit line ':').getD 0 "") = k ∧
        parseValue (jsTrim ((jsSplit line ':').getD 1 "")) = m := by
  unfold parseLine?
  by_cases h : (jsSplit line ':').length = 2
  · simp only [h, if_true, Option.some.injEq, Prod.mk.injEq, true_and]
  · simp [h]

theorem mem_parse_entry (input k : String) :
    (∃ m, lookupMetric (parseDiagnostics input) k = some m) ↔
      ∃ line ∈ jsSplit input '\n', ∃ m, parseLine? line = some (k, m) := by
  rw [lookupMetric_parse]
  constructor
  · rintro ⟨m, hm⟩
    rcases hf : ((jsSplit input '\n').filterMap parseLine?).reverse.find?
        (fun p => p.1 == k) with _ | p
    · rw [hf] at hm
      cases hm
    · have hpk : p.1 = k := by
        have := List.find?_some hf
        simpa using this
      have hpmem : p ∈ (jsSplit input '\n').filterMap parseLine? :=
        List.mem_reverse.mp (List.mem_of_find?_eq_some hf)
      obtain ⟨line, hline, hpl⟩ := List.mem_filterMap.mp hpmem
      exact ⟨line, hline, p.2, by rw [hpl, ← hpk]⟩
  · rintro ⟨line, hline, m, hm⟩
    have hmem : ((k, m) : String × Metric) ∈
        ((jsSplit input '\n').filterMap parseLine?).reverse :=
      List.mem_reverse.mpr (List.mem_filterMap.mpr ⟨line, hline, hm⟩)
    have hsome : (((jsSplit input '\n').filterMap parseLine?).reverse.find?
        (fun p => p.1 == k)).isSome := by
      rw [List.find?_isSome]
      exact ⟨(k, m), hmem, by simp⟩
    rcases hf : ((jsSplit input '\n').filterMap parseLine?).reverse.find?
        (fun p => p.1 == k) with _ | p
    · rw [hf] at hsome
      cases hsome
    · exact ⟨p.2, by rw [hf]; rfl⟩

/-! ## Claim-support lemmas -/

theorem pctCell_zero : pctCell 0 = "0.00%" := by
  with_unfolding_all decide

theorem row_tail_unchanged (a : String) :
    a ++ " | " ++ "±" ++ " (" ++ "0.00%" ++ ") |" = a ++ " | ± (0.00%) |" := by
  simp only [String.append_assoc]
  congr 1

theorem mem_of_getLastEq (l : List Char) (c : Char) (h : l.getLast? = some c) : c ∈ l := by
  induction l with
  | nil => cases h
  | cons x xs ih =>
    cases xs with
    | nil =>
      simp only [List.getLast?_singleton, Option.some.injEq] at h
      simp [h]
    | cons y ys =>
      have h2 : (y :: ys).getLast? = some c := by rwa [List.getLast?_cons_cons] at h
      exact List.mem_cons_of_mem x (ih h2)

theorem removeFirstChar_eq_dropLast (c : Char) (l : List Char)
    (hlast : l.getLast? = some c) (hcount : l.count c = 1) :
    removeFirstChar c l = l.dropLast := by
  induction l with
  | nil => cases hlast
  | cons x xs ih =>
    cases xs with
    | nil =>
      simp only [List.getLast?_singleton, Option.some.injEq] at hlast
      simp [removeFirstChar, hlast]
    | cons y ys =>
      have hlast2 : (y :: ys).getLast? = some c := by
        rwa [List.getLast?_cons_cons] at hlast
      by_cases hx : x = c
      · exfalso
        have hmem : c ∈ y :: ys := mem_of_getLastEq _ _ hlast2
        have hpos : 0 < (y :: ys).count c := List.count_pos_iff.mpr hmem
        rw [List.count_cons] at hcount
        simp only [hx, beq_self_eq_true, if_true] at hcount
        omega
      · have hcount2 : (y :: ys).count c = 1 := by
          rw [List.count_cons] at hcount
          simpa [beq_iff_eq, hx] using hcount
        rw [show removeFirstChar c (x :: y :: ys) = x :: removeFirstChar c (y :: ys) from by
          simp [removeFirstChar, hx]]
        rw [ih hlast2 hcount2]
        rfl

/-! ## Claims -/

/-- Claim C1 (code bug evaluation).  The spec says an absent previous metric
is treated as value `0`, unit none, the delta being the current value minus
`0` and the rendered previous cell `0`.  The code's fallback
`previousDiagnostics[key] || 0` is the NUMBER `0`, whose `.value` and
`.unit` accesses yield `undefined`: the delta becomes `NaN` (here `none`),
and the rendered row shows `undefinedundefined` with status `▼ (0.00%)`
instead of previous `0` with `▲ (+100.00%)`.  Evaluation of the code at the
failing input (previous text empty, current text `"Files: 42"`,
threshold `300`). -/
theorem c1_absent_previous_eval :
    compareRows "" "Files: 42" 300 = ["| Files | undefinedundefined | 42 | ▼ (0.00%) |"]
    ∧ metricDiff (parseDiagnostics "") "Files" (Metric.mk (some 42) "") = none := by
  constructor <;> with_unfolding_all decide

/-- Claim C2 (counterexample).  On the spec's worked example the rendered
rows are NOT the three rows the claim states: the `Check time` row has
status `±` (its 0.25 s delta is within the 300 ms threshold, contradicting
the claimed `▲`), the `Memory used` row shows `(0.00%)` without the claimed
`+` sign (the code adds `+` only for strictly positive percentages), and the
`Files` row shows `undefinedundefined` / `▼ (0.00%)` because of the
absent-previous fallback bug, not `0` / `▲ (+100.00%)`. -/
theorem c2_example_counterexample :
    compareRows "Check time: 1.200s\nMemory used: 100K"
        "Check time: 1.450s\nMemory used: 100K\nFiles: 42" 300 ≠
      ["| Check time | 1.2s | 1.45s | ▲ (+17.24%) |",
       "| Memory used | 100K | 100K | ± (+0.00%) |",
       "| Files | 0 | 42 | ▲ (+100.00%) |"] := by
  with_unfolding_all decide

/-- Claim C2 (amended).  For previous text
`"Check time: 1.200s\nMemory used: 100K"`, current text
`"Check time: 1.450s\nMemory used: 100K\nFiles: 42"` and threshold `300`,
the rendered report contains exactly the rows
`Check time | 1.2s | 1.45s | ± (+17.24%)`,
`Memory used | 100K | 100K | ± (0.00%)` and
`Files | undefinedundefined | 42 | ▼ (0.00%)`, in that order. -/
theorem c2_example_actual_rows :
    compareRows "Check time: 1.200s\nMemory used: 100K"
        "Check time: 1.450s\nMemory used: 100K\nFiles: 42" 300 =
      ["| Check time | 1.2s | 1.45s | ± (+17.24%) |",
       "| Memory used | 100K | 100K | ± (0.00%) |",
       "| Files | undefinedundefined | 42 | ▼ (0.00%) |"] := by
  with_unfolding_all decide

/-- Claim C3 (counterexample).  Comparing a snapshot with itself does NOT
always yield only `±` rows: when a metric value is unparseable (`NaN`), the
self-comparison delta is `NaN - NaN = NaN`, which is not `=== 0`, and the
row gets status `▼`.  Input `"x: a"` compared with itself at threshold 300
renders the single row `| x | NaN | NaN | ▼ (0.00%) |`, which contains no
`±`. -/
theorem c3_self_counterexample :
    compareRows "x: a" "x: a" 300 = ["| x | NaN | NaN | ▼ (0.00%) |"]
    ∧ occursIn "| x | NaN | NaN | ▼ (0.00%) |" "±" = false := by
  constructor <;> with_unfolding_all decide

/-- Claim C3 (amended).  For every input text ALL OF WHOSE parsed metric
values are numeric (not `NaN`) and every threshold, comparing the text with
itself renders every row with status `±` and percentage `0.00%`. -/
theorem c3_self_compare (text : String) (t : ℚ)
    (h : ∀ p ∈ parseDiagnostics text, p.2.value ≠ none) :
    compareRows text text t = (parseDiagnostics text).map
      (fun p => "| " ++ p.1 ++ " | " ++ showMetricValue p.2 ++ " | "
        ++ showMetricValue p.2 ++ " | ± (0.00%) |") := by
  unfold compareRows
  apply List.map_congr_left
  intro p hp
  obtain ⟨q, hq⟩ := Option.ne_none_iff_exists'.mp (h p hp)
  have hlk : lookupMetric (parseDiagnostics text) p.1 = some p.2 :=
    lookupMetric_of_mem _ _ _ (parseDiagnostics_keys_nodup text) hp
  have hdiff : metricDiff (parseDiagnostics text) p.1 p.2 = some 0 := by
    unfold metricDiff prevValueField
    rw [hlk]
    simp [jsSub, hq, Option.bind]
  have hst : metricStatusStr (parseDiagnostics text) t p.1 p.2 = "±" := by
    unfold metricStatusStr
    simp [hdiff]
  have hpct : metricPct (parseDiagnostics text) p.1 p.2 = 0 := by
    unfold metricPct
    rw [hdiff]
    by_cases hz : p.2.value = some 0
    · simp [hz]
    · rw [if_pos hz]
      rw [hq] at hz ⊢
      have hq0 : q ≠ 0 := fun hc => hz (by rw [hc])
      simp [jsDiv, jsMulC, hq0]
  have hprev : prevCell (parseDiagnostics text) p.1 = showMetricValue p.2 := by
    unfold prevCell
    rw [hlk]
  unfold metricRow
  rw [hst, hpct, pctCell_zero, hprev]
  exact row_tail_unchanged _

/-- Claim C3 (witness): the amended theorem applied to the concrete input
`"a: 1"` with threshold `7`. -/
theorem c3_witness :
    compareRows "a: 1" "a: 1" 7 = ["| a | 1 | 1 | ± (0.00%) |"] := by
  rw [c3_self_compare "a: 1" 7 (by with_unfolding_all decide)]
  with_unfolding_all decide

/-- Claim C4.  Status classification: a zero delta is `±`; for a
`time`-named metric (case-insensitive) with nonzero delta the status is `±`
exactly when `|delta| * 1000 <= threshold` (so for a nonnegative threshold a
delta of exactly `threshold / 1000` seconds is `±` — inclusive boundary),
else `▲` for positive and `▼` for negative delta; a metric whose name does
not contain `time` is `±` exactly when its delta is exactly zero, whatever
the threshold.  (`NaN` deltas are covered: a `NaN` comparison is false, so
the status is never `±` there.) -/
theorem c4_classification (prevD : List (String × Metric)) (t : ℚ) (key : String)
    (cur : Metric) :
    (metricDiff prevD key cur = some 0 → metricStatusStr prevD t key cur = "±")
    ∧ (timeEligible key = true → metricDiff prevD key cur ≠ some 0 →
        (metricStatusStr prevD t key cur = "±" ↔
          jsLe (jsMulC (jsAbs (metricDiff prevD key cur)) 1000) t = true))
    ∧ (0 ≤ t → timeEligible key = true → metricDiff prevD key cur = some (t / 1000) →
        metricStatusStr prevD t key cur = "±")
    ∧ (∀ q : ℚ, timeEligible key = true → metricDiff prevD key cur = some q → q ≠ 0 →
        jsLe (jsMulC (jsAbs (metricDiff prevD key cur)) 1000) t = false →
        ((0 < q → metricStatusStr prevD t key cur = "▲")
          ∧ (q < 0 → metricStatusStr prevD t key cur = "▼")))
    ∧ (timeEligible key = false →
        (metricStatusStr prevD t key cur = "±" ↔ metricDiff prevD key cur = some 0)) := by
  refine ⟨?_, ?_, ?_, ?_, ?_⟩
  · intro h
    simp [metricStatusStr, h]
  · intro ht hne
    by_cases hw : jsLe (jsMulC (jsAbs (metricDiff prevD key cur)) 1000) t = true
    · simp [metricStatusStr, hne, ht, hw]
    · rw [Bool.not_eq_true] at hw
      simp only [metricStatusStr, hne, if_false, ht, hw, Bool.and_false, Bool.true_and]
      by_cases hpos : jsPos (metricDiff prevD key cur) = true <;>
        simp [hpos, hw]
  · intro h0 ht hdq
    by_cases hq0 : t = 0
    · subst hq0
      norm_num at hdq
      simp [metricStatusStr, hdq]
    · have htpos : 0 < t := lt_of_le_of_ne h0 (Ne.symm hq0)
      have hne : metricDiff prevD key cur ≠ some 0 := by
        rw [hdq]
        intro hc
        simp only [Option.some.injEq] at hc
        rcases div_eq_zero_iff.mp hc with h | h
        · exact hq0 h
        · norm_num at h
      have hw : jsLe (jsMulC (jsAbs (metricDiff prevD key cur)) 1000) t = true := by
        rw [hdq]
        simp only [jsAbs, jsMulC, jsLe, Option.map_some', decide_eq_true_eq]
        rw [abs_of_nonneg (by positivity)]
        rw [div_mul_cancel₀ t (by norm_num : (1000 : ℚ) ≠ 0)]
      simp [metricStatusStr, hne, ht, hw]
  · rintro q ht hdq hqne hw
    have hne : metricDiff prevD key cur ≠ some 0 := by
      rw [hdq]
      simpa using hqne
    constructor
    · intro hqpos
      have hpos : jsPos (metricDiff prevD key cur) = true := by
        rw [hdq]
        simpa [jsPos] using hqpos
      simp [metricStatusStr, hne, ht, hw, hpos]
    · intro hqneg
      have hpos : jsPos (metricDiff prevD key cur) = false := by
        rw [hdq]
        simp only [jsPos, decide_eq_false_iff_not, not_lt]
        exact le_of_lt hqneg
      simp [metricStatusStr, hne, ht, hw, hpos]
  · intro ht
    by_cases h0 : metricDiff prevD key cur = some 0
    · simp [metricStatusStr, h0]
    · simp only [metricStatusStr, h0, if_false, ht, Bool.false_and]
      by_cases hpos : jsPos (metricDiff prevD key cur) = true <;>
        simp [hpos, h0]

/-- Claim C4 (witness): a metric `a` equal in both snapshots has delta
`some 0` and status `±` at threshold `300`. -/
theorem c4_witness :
    metricStatusStr [("a", Metric.mk (some 1) "")] 300 "a" (Metric.mk (some 1) "") = "±" :=
  (c4_classification [("a", Metric.mk (some 1) "")] 300 "a" (Metric.mk (some 1) "")).1
    (by with_unfolding_all decide)

/-- Claim C5 (counterexample).  The code does not strip the terminal
suffix: `value.replace('s', '')` removes the FIRST occurrence of `s`.  On
the line `"m: 1s0s"` the stored value is `parseFloat("10s") = 10`, whereas
stripping the suffix as the claim states gives `parseFloat("1s0") = 1`. -/
theorem c5_replace_counterexample :
    parseLine? "m: 1s0s" = some ("m", Metric.mk (some 10) "s")
    ∧ specParseValue (jsTrim " 1s0s") = Metric.mk (some 1) "s"
    ∧ parseValue (jsTrim " 1s0s") ≠ specParseValue (jsTrim " 1s0s") := by
  refine ⟨?_, ?_, ?_⟩ <;> with_unfolding_all decide

/-- Claim C5 (amended).  For every parsed value: if it ends with `s`, the
FIRST occurrence of `s` is removed and the remainder parsed as a float with
unit seconds — which coincides with stripping the suffix whenever `s`
occurs exactly once in the value; else if it ends with `K`, the first
occurrence of `K` is removed and the remainder parsed as an integer with
unit kilo (same caveat); otherwise the whole trimmed value is parsed as an
integer with unit none (here code and spec wording agree
unconditionally). -/
theorem c5_suffix_parsing (v : String) :
    (endsWithChar v 's' = true →
      parseValue v = Metric.mk (jsParseFloat (replaceCharOnce v 's')) "s"
      ∧ (v.data.count 's' = 1 → parseValue v = specParseValue v))
    ∧ (endsWithChar v 's' = false → endsWithChar v 'K' = true →
      parseValue v = Metric.mk (jsParseInt (replaceCharOnce v 'K')) "K"
      ∧ (v.data.count 'K' = 1 → parseValue v = specParseValue v))
    ∧ (endsWithChar v 's' = false → endsWithChar v 'K' = false →
      parseValue v = Metric.mk (jsParseInt v) "" ∧ parseValue v = specParseValue v) := by
  refine ⟨?_, ?_, ?_⟩
  · intro hs
    refine ⟨by simp [parseValue, hs], fun hc => ?_⟩
    have hlast : v.data.getLast? = some 's' := by
      have := of_decide_eq_true hs
      exact this
    have hrepl : replaceCharOnce v 's' = dropLastChar v := by
      unfold replaceCharOnce dropLastChar
      rw [removeFirstChar_eq_dropLast 's' v.data hlast hc]
    simp [parseValue, specParseValue, hs, hrepl]
  · intro hs hk
    refine ⟨by simp [parseValue, hs, hk], fun hc => ?_⟩
    have hlast : v.data.getLast? = some 'K' := of_decide_eq_true hk
    have hrepl : replaceCharOnce v 'K' = dropLastChar v := by
      unfold replaceCharOnce dropLastChar
      rw [removeFirstChar_eq_dropLast 'K' v.data hlast hc]
    simp [parseValue, specParseValue, hs, hk, hrepl]
  · intro hs hk
    exact ⟨by simp [parseValue, hs, hk], by simp [parseValue, specParseValue, hs, hk]⟩

/-- Claim C5 (witness): on the well-formed value `"1.2s"` (a single `s`)
the code's parse agrees with the spec-worded suffix-stripping parse. -/
theorem c5_witness : parseValue "1.2s" = specParseValue "1.2s" :=
  ((c5_suffix_parsing "1.2s").1 (by decide)).2 (by decide)

/-- Claim C6.  Parsing is total (it is a function in this model, and every
branch yields a value): a metric name appears in the parsed snapshot
exactly when some line has exactly one colon and that line's trimmed
left part is the name; and an unparseable numeric value (`NaN` metric
value, hence `NaN` delta) yields percentage `0` instead of an error. -/
theorem c6_parse_totality :
    (∀ input k : String,
      (∃ m, lookupMetric (parseDiagnostics input) k = some m) ↔
        ∃ line ∈ jsSplit input '\n', line.data.count ':' = 1
          ∧ jsTrim ((jsSplit line ':').getD 0 "") = k)
    ∧ (∀ (prevD : List (String × Metric)) (key : String) (cur : Metric),
        cur.value = none → metricPct prevD key cur = 0)
    ∧ (∀ (prevD : List (String × Metric)) (key : String) (cur : Metric),
        metricDiff prevD key cur = none → metricPct prevD key cur = 0) := by
  refine ⟨?_, ?_, ?_⟩
  · intro input k
    rw [mem_parse_entry]
    constructor
    · rintro ⟨line, hline, m, hm⟩
      obtain ⟨hlen, hkey, _⟩ := (parseLine?_eq_some_iff line k m).mp hm
      refine ⟨line, hline, ?_, hkey⟩
      have : (jsSplit line ':').length = line.data.count ':' + 1 := by
        unfold jsSplit
        rw [List.length_map, splitChar_length]
      omega
    · rintro ⟨line, hline, hcount, hkey⟩
      have hlen : (jsSplit line ':').length = 2 := by
        have : (jsSplit line ':').length = line.data.count ':' + 1 := by
          unfold jsSplit
          rw [List.length_map, splitChar_length]
        omega
      exact ⟨line, hline, parseValue (jsTrim ((jsSplit line ':').getD 1 "")),
        (parseLine?_eq_some_iff line k _).mpr ⟨hlen, hkey, rfl⟩⟩
  · intro prevD key cur h
    unfold metricPct
    have : cur.value ≠ some 0 := by
      rw [h]
      exact fun hc => by cases hc
    rw [if_pos this, h]
    rcases metricDiff prevD key cur with _ | q <;> simp [jsDiv, jsMulC]
  · intro prevD key cur h
    unfold metricPct
    rw [h]
    by_cases hz : cur.value ≠ some 0
    · rw [if_pos hz]
      rcases cur.value with _ | q <;> simp [jsDiv, jsMulC]
    · rw [if_neg hz]
      rfl

/-- Claim C6 (witness): a `NaN` current value yields percentage `0`. -/
theorem c6_witness : metricPct [] "x" (Metric.mk none "") = 0 :=
  c6_parse_totality.2.1 [] "x" (Metric.mk none "") rfl

/-- Claim C7 (counterexample).  With `A = B = "x: a"` (an unparseable
value, hence a `NaN` delta) the swapped comparison is the SAME comparison,
and the single metric `x` has status `▼` in both orders; the claimed
equivalence `status(A,B) = increased ↔ status(B,A) = decreased` is then
false ↔ true. -/
theorem c7_counterexample :
    lookupMetric (parseDiagnostics "x: a") "x" = some (Metric.mk none "")
    ∧ metricStatusStr (parseDiagnostics "x: a") 300 "x" (Metric.mk none "") = "▼"
    ∧ ¬((metricStatusStr (parseDiagnostics "x: a") 300 "x" (Metric.mk none "") = "▲")
        ↔ (metricStatusStr (parseDiagnostics "x: a") 300 "x" (Metric.mk none "") = "▼")) := by
  refine ⟨?_, ?_, ?_⟩ <;> with_unfolding_all decide

/-- Claim C7 (amended).  For a metric name present in BOTH snapshots with
NUMERIC (non-`NaN`) values on both sides, swapping the previous/current
arguments negates the delta, and the statuses reflect: `▲` becomes `▼`,
`▼` becomes `▲`, and `±` stays `±`.  (Metrics with `NaN` values, or absent
from one snapshot, are excluded: their delta is `NaN` and their status `▼`
in both orders, as the counterexample shows.) -/
theorem c7_swap_reflection (A B : String) (t : ℚ) (k : String) (mA mB : Metric)
    (a b : ℚ)
    (hA : lookupMetric (parseDiagnostics A) k = some mA)
    (hB : lookupMetric (parseDiagnostics B) k = some mB)
    (ha : mA.value = some a) (hb : mB.value = some b) :
    metricDiff (parseDiagnostics A) k mB = some (b - a)
    ∧ metricDiff (parseDiagnostics B) k mA = some (a - b)
    ∧ metricDiff (parseDiagnostics B) k mA
        = jsNegate (metricDiff (parseDiagnostics A) k mB)
    ∧ (metricStatusStr (parseDiagnostics A) t k mB = "▲"
        ↔ metricStatusStr (parseDiagnostics B) t k mA = "▼")
    ∧ (metricStatusStr (parseDiagnostics A) t k mB = "▼"
        ↔ metricStatusStr (parseDiagnostics B) t k mA = "▲")
    ∧ (metricStatusStr (parseDiagnostics A) t k mB = "±"
        ↔ metricStatusStr (parseDiagnostics B) t k mA = "±") := by
  have hdAB : metricDiff (parseDiagnostics A) k mB = some (b - a) := by
    unfold metricDiff prevValueField
    rw [hA, hb]
    simp [jsSub, Option.bind, ha]
  have hdBA : metricDiff (parseDiagnostics B) k mA = some (a - b) := by
    unfold metricDiff prevValueField
    rw [hB, ha]
    simp [jsSub, Option.bind, hb]
  refine ⟨hdAB, hdBA, ?_, ?_⟩
  · rw [hdAB, hdBA]
    simp [jsNegate, neg_sub]
  have habs : |a - b| = |b - a| := abs_sub_comm a b
  rcases lt_trichotomy (b - a) 0 with hlt | heq | hgt
  · have hltBA : 0 < a - b := by linarith
    by_cases hw : jsLe (jsMulC (jsAbs (some (b - a))) 1000) t = true
    · have hwBA : jsLe (jsMulC (jsAbs (some (a - b))) 1000) t = true := by
        simp only [jsAbs, jsMulC, jsLe, Option.map_some', decide_eq_true_eq] at hw ⊢
        rw [habs]
        exact hw
      by_cases ht : timeEligible k = true
      · have hsAB : metricStatusStr (parseDiagnostics A) t k mB = "±" := by
          simp [metricStatusStr, hdAB, hlt.ne, ht, hw]
        have hsBA : metricStatusStr (parseDiagnostics B) t k mA = "±" := by
          simp [metricStatusStr, hdBA, hltBA.ne', ht, hwBA]
        rw [hsAB, hsBA]
        refine ⟨?_, ?_, ?_⟩ <;> simp
      · have ht2 : timeEligible k = false := by
          rw [Bool.not_eq_true] at ht
          exact ht
        have hsAB : metricStatusStr (parseDiagnostics A) t k mB = "▼" := by
          simp [metricStatusStr, hdAB, hlt.ne, ht2, jsPos, not_lt.mpr (le_of_lt hlt)]
        have hsBA : metricStatusStr (parseDiagnostics B) t k mA = "▲" := by
          simp [metricStatusStr, hdBA, hltBA.ne', ht2, jsPos, hltBA]
        rw [hsAB, hsBA]
        refine ⟨?_, ?_, ?_⟩ <;> simp
    · have hw2 : jsLe (jsMulC (jsAbs (some (b - a))) 1000) t = false := by
        rw [Bool.not_eq_true] at hw
        exact hw
      have hwBA : jsLe (jsMulC (jsAbs (some (a - b))) 1000) t = false := by
        simp only [jsAbs, jsMulC, jsLe, Option.map_some',
          decide_eq_false_iff_not] at hw2 ⊢
        rw [habs]
        exact hw2
      have hsAB : metricStatusStr (parseDiagnostics A) t k mB = "▼" := by
        simp [metricStatusStr, hdAB, hlt.ne, hw2, jsPos, not_lt.mpr (le_of_lt hlt)]
      have hsBA : metricStatusStr (parseDiagnostics B) t k mA = "▲" := by
        simp [metricStatusStr, hdBA, hltBA.ne', hwBA, jsPos, hltBA]
      rw [hsAB, hsBA]
      refine ⟨?_, ?_, ?_⟩ <;> simp
  · have heqBA : a - b = 0 := by linarith
    have hsAB : metricStatusStr (parseDiagnostics A) t k mB = "±" := by
      simp [metricStatusStr, hdAB, heq]
    have hsBA : metricStatusStr (parseDiagnostics B) t k mA = "±" := by
      simp [metricStatusStr, hdBA, heqBA]
    rw [hsAB, hsBA]
    refine ⟨?_, ?_, ?_⟩ <;> simp
  · have hltBA : a - b < 0 := by linarith
    by_cases hw : jsLe (jsMulC (jsAbs (some (b - a))) 1000) t = true
    · have hwBA : jsLe (jsMulC (jsAbs (some (a - b))) 1000) t = true := by
        simp only [jsAbs, jsMulC, jsLe, Option.map_some', decide_eq_true_eq] at hw ⊢
        rw [habs]
        exact hw
      by_cases ht : timeEligible k = true
      · have hsAB : metricStatusStr (parseDiagnostics A) t k mB = "±" := by
          simp [metricStatusStr, hdAB, hgt.ne', ht, hw]
        have hsBA : metricStatusStr (parseDiagnostics B) t k mA = "±" := by
          simp [metricStatusStr, hdBA, hltBA.ne, ht, hwBA]
        rw [hsAB, hsBA]
        refine ⟨?_, ?_, ?_⟩ <;> simp
      · have ht2 : timeEligible k = false := by
          rw [Bool.not_eq_true] at ht
          exact ht
        have hsAB : metricStatusStr (parseDiagnostics A) t k mB = "▲" := by
          simp [metricStatusStr, hdAB, hgt.ne', ht2, jsPos, hgt]
        have hsBA : metricStatusStr (parseDiagnostics B) t k mA = "▼" := by
          simp [metricStatusStr, hdBA, hltBA.ne, ht2, jsPos, not_lt.mpr (le_of_lt hltBA)]
        rw [hsAB, hsBA]
        refine ⟨?_, ?_, ?_⟩ <;> simp
    · have hw2 : jsLe (jsMulC (jsAbs (some (b - a))) 1000) t = false := by
        rw [Bool.not_eq_true] at hw
        exact hw
      have hwBA : jsLe (jsMulC (jsAbs (some (a - b))) 1000) t = false := by
        simp only [jsAbs, jsMulC, jsLe, Option.map_some',
          decide_eq_false_iff_not] at hw2 ⊢
        rw [habs]
        exact hw2
      have hsAB : metricStatusStr (parseDiagnostics A) t k mB = "▲" := by
        simp [metricStatusStr, hdAB, hgt.ne', hw2, jsPos, hgt]
      have hsBA : metricStatusStr (parseDiagnostics B) t k mA = "▼" := by
        simp [metricStatusStr, hdBA, hltBA.ne, hwBA, jsPos, not_lt.mpr (le_of_lt hltBA)]
      rw [hsAB, hsBA]
      refine ⟨?_, ?_, ?_⟩ <;> simp

/-- Claim C7 (witness): the amended theorem applied to `A = "x: 1"`,
`B = "x: 2"`, threshold `300`: the swapped delta is the negation. -/
theorem c7_witness :
    metricDiff (parseDiagnostics "x: 2") "x" (Metric.mk (some 1) "")
      = jsNegate (metricDiff (parseDiagnostics "x: 1") "x" (Metric.mk (some 2) "")) :=
  (c7_swap_reflection "x: 1" "x: 2" 300 "x" (Metric.mk (some 1) "")
    (Metric.mk (some 2) "") 1 2
    (by with_unfolding_all decide) (by with_unfolding_all decide) rfl rfl).2.2.1

/-- Claim C8.  In every parsed snapshot each metric name occurs at most
once (the key list is duplicate-free), and looking a name up yields the
metric parsed from the LAST line of the input whose trimmed left part (of
an exactly-one-colon split) is that name — later duplicates overwrite
earlier ones. -/
theorem c8_last_line_wins :
    ∀ input k : String,
      ((parseDiagnostics input).map Prod.fst).Nodup
      ∧ lookupMetric (parseDiagnostics input) k =
          (((jsSplit input '\n').filterMap parseLine?).reverse.find?
            (fun p => p.1 == k)).map (fun p => p.2) :=
  fun input k => ⟨parseDiagnostics_keys_nodup input, lookupMetric_parse input k⟩

/-- Claim C10.  Whenever the computed delta of a row is `NaN` — because the
current value is unparseable, the previous value is unparseable, or the
metric is absent from the previous snapshot so that the `|| 0` fallback's
`.value` access yields `undefined` — the rendered row shows status `▼` and
percentage `0.00%`, never `±` (so even identical previous/current texts can
render `▼`, cf. the C3 counterexample). -/
theorem c10_nan_delta (prevD : List (String × Metric)) (t : ℚ) (key : String)
    (cur : Metric) :
    ((cur.value = none ∨ prevValueField prevD key = none) →
      metricDiff prevD key cur = none)
    ∧ (metricDiff prevD key cur = none →
        metricStatusStr prevD t key cur = "▼"
        ∧ metricPct prevD key cur = 0
        ∧ metricRow prevD t key cur
            = "| " ++ key ++ " | " ++ prevCell prevD key ++ " | "
              ++ showMetricValue cur ++ " | " ++ "▼" ++ " (" ++ "0.00%" ++ ") |") := by
  constructor
  · rintro (h | h)
    · unfold metricDiff
      rw [h]
      rfl
    · unfold metricDiff
      rw [h]
      rcases cur.value with _ | q <;> rfl
  · intro h
    have hst : metricStatusStr prevD t key cur = "▼" := by
      simp [metricStatusStr, h, jsAbs, jsMulC, jsLe, jsPos]
    have hpct : metricPct prevD key cur = 0 := by
      unfold metricPct
      rw [h]
      by_cases hz : cur.value ≠ some 0
      · rw [if_pos hz]
        rcases cur.value with _ | q <;> simp [jsDiv, jsMulC]
      · rw [if_neg hz]
        rfl
    refine ⟨hst, hpct, ?_⟩
    unfold metricRow
    rw [hst, hpct, pctCell_zero]

/-- Claim C10 (witness): metric `Files` present only in the current
snapshot (value 42): status `▼`, percentage `0`. -/
theorem c10_witness :
    metricStatusStr [] 300 "Files" (Metric.mk (some 42) "") = "▼"
    ∧ metricPct [] "Files" (Metric.mk (some 42) "") = 0 := by
  have h := (c10_nan_delta [] 300 "Files" (Metric.mk (some 42) "")).2 (by
    with_unfolding_all decide)
  exact ⟨h.1, h.2.1⟩

/-- Claim C9.  The first line of every rendered report is
`## Diagnostics Comparison:`, which contains the literal marker substring
`Diagnostics Comparison`; every row consists of the four cells followed by
the status symbol (one of `±` / `▲` / `▼`) and then the percentage,
`toFixed(2)`-formatted (always two digits after the decimal point) with an
explicit `+` sign exactly when the percentage is positive; and rendering is
deterministic — equal inputs give an equal string. -/
theorem c9_render (p c : String) (t : ℚ) :
    ((jsSplit (compareDiagnostics p c t) '\n').getD 0 "" = "## Diagnostics Comparison:"
      ∧ occursIn "## Diagnostics Comparison:" "Diagnostics Comparison" = true)
    ∧ (∀ kv ∈ parseDiagnostics c,
        metricRow (parseDiagnostics p) t kv.1 kv.2
          = "| " ++ kv.1 ++ " | " ++ prevCell (parseDiagnostics p) kv.1 ++ " | "
            ++ showMetricValue kv.2 ++ " | "
            ++ metricStatusStr (parseDiagnostics p) t kv.1 kv.2 ++ " ("
            ++ pctCell (metricPct (parseDiagnostics p) kv.1 kv.2) ++ ") |"
        ∧ (metricStatusStr (parseDiagnostics p) t kv.1 kv.2 = "±"
            ∨ metricStatusStr (parseDiagnostics p) t kv.1 kv.2 = "▲"
            ∨ metricStatusStr (parseDiagnostics p) t kv.1 kv.2 = "▼"))
    ∧ (∀ q : ℚ,
        (0 < q → pctCell q = "+" ++ toFixed2 q ++ "%")
        ∧ (q ≤ 0 → pctCell q = toFixed2 q ++ "%")
        ∧ ∃ pre : List Char, ∃ d1 d2 : Char,
            (toFixed2 q).data = pre ++ ['.', d1, d2]
            ∧ d1.isDigit = true ∧ d2.isDigit = true)
    ∧ (∀ p2 c2 : String, ∀ t2 : ℚ, p2 = p → c2 = c → t2 = t →
        compareDiagnostics p2 c2 t2 = compareDiagnostics p c t) := by
  refine ⟨⟨?_, by decide⟩, ?_, ?_, ?_⟩
  · obtain ⟨s, hs⟩ : ∃ s : String, compareDiagnostics p c t
        = "## Diagnostics Comparison:" ++ "\n" ++ s := by
      refine ⟨"\n" ++ "<details><summary>Click to expand</summary>\n\n"
        ++ "| Metric | Previous | New | Status |\n"
        ++ "| --- | --- | --- | --- |\n"
        ++ String.join ((compareRows p c t).map (fun r => r ++ "\n"))
        ++ "</details>\n\n", ?_⟩
      rfl
    rw [hs]
    unfold jsSplit
    have hdata : ("## Diagnostics Comparison:" ++ "\n" ++ s).data
        = "## Diagnostics Comparison:".data ++ '\n' :: s.data := by
      rw [String.data_append, String.data_append, List.append_assoc]
      rfl
    rw [hdata, splitChar_append_sep '\n' _ _ (by decide)]
    simp only [List.map_cons, List.getD_cons_zero]
  · intro kv hkv
    refine ⟨rfl, ?_⟩
    by_cases h1 : metricDiff (parseDiagnostics p) kv.1 kv.2 = some 0
    · left
      simp [metricStatusStr, h1]
    · by_cases h2 : (timeEligible kv.1
          && jsLe (jsMulC (jsAbs (metricDiff (parseDiagnostics p) kv.1 kv.2)) 1000) t)
          = true
      · left
        simp [metricStatusStr, h1, h2]
      · rw [Bool.not_eq_true] at h2
        by_cases h3 : jsPos (metricDiff (parseDiagnostics p) kv.1 kv.2) = true
        · right
          left
          simp [metricStatusStr, h1, h2, h3]
        · right
          right
          rw [Bool.not_eq_true] at h3
          simp [metricStatusStr, h1, h2, h3]
  · intro q
    refine ⟨fun hq => ?_, fun hq => ?_, ?_⟩
    · unfold pctCell
      rw [if_pos hq]
    · unfold pctCell
      rw [if_neg (not_lt.mpr hq)]
      rfl
    · have hb : ∀ r : Nat, r < 100 →
          (twoDigitPad r).data.length = 2
            ∧ ∀ ch ∈ (twoDigitPad r).data, ch.isDigit = true := by
        decide
      have hlt : ((Int.floor (|q| * 100 + 1 / 2)).toNat % 100) < 100 :=
        Nat.mod_lt _ (by norm_num)
      obtain ⟨hlen, hdig⟩ := hb _ hlt
      obtain ⟨d1, d2, hdd⟩ := List.length_eq_two.mp hlen
      refine ⟨(if q < 0 then "-" else "").data
          ++ (Nat.repr ((Int.floor (|q| * 100 + 1 / 2)).toNat / 100)).data, d1, d2,
          ?_, ?_, ?_⟩
      · simp only [toFixed2]
        rw [String.data_append, String.data_append, String.data_append, hdd,
          List.append_assoc]
        rfl
      · exact hdig d1 (by rw [hdd]; exact List.mem_cons_self _ _)
      · exact hdig d2 (by rw [hdd]; exact List.mem_cons_of_mem _ (List.mem_cons_self _ _))
  · rintro p2 c2 t2 rfl rfl rfl
    rfl

/-- Claim C9 (witness): the title-line conjunct at a concrete input. -/
theorem c9_witness :
    (jsSplit (compareDiagnostics "a: 1" "a: 2" 300) '\n').getD 0 ""
      = "## Diagnostics Comparison:" :=
  (c9_render "a: 1" "a: 2" 300).1.1
